import Mathlib

/-
Verification of the SDoH bilingual survey engine (src/app.py).

The embedding models Python values that flow through the engine with the
inductive type `JVal` (None, int, str, dict, list).  Answer sets are
Python dicts from question id to value, modelled as association lists in
insertion order.  Each definition below transcribes the corresponding
Python function from src/app.py; definitions whose doc comment starts
with "Modelled from the spec:" correspond to repository code that is not
present under src/ and are taken from the specification text instead.
-/

set_option autoImplicit false

namespace SDoH

/-- A Python value as used by the survey engine: `jnull` is Python `None`,
`jobj` a dict (association list in insertion order), `jarr` a list. -/
inductive JVal where
  | jnull
  | jint (n : Int)
  | jstr (s : String)
  | jobj (fields : List (String × JVal))
  | jarr (elems : List JVal)

/-- An answer set: a Python dict from question id to answer value. -/
def AnswerSet := List (String × JVal)

/-- Python `d.get(k)`: the first value stored under `k`, or `None`. -/
def dictGet (m : List (String × JVal)) (k : String) : JVal :=
  match m.find? (fun p => p.1 == k) with
  | some p => p.2
  | none => JVal.jnull

/-- Python `d.get(k, default)`. -/
def dictGetD (m : List (String × JVal)) (k : String) (d : JVal) : JVal :=
  match m.find? (fun p => p.1 == k) with
  | some p => p.2
  | none => d

/-- Python `d[k] = v` on a dict: overwrite in place if the key exists,
otherwise append the new entry at the end. -/
def dictSet (m : List (String × JVal)) (k : String) (v : JVal) :
    List (String × JVal) :=
  if m.any (fun p => p.1 == k) then
    m.map (fun p => if p.1 == k then (k, v) else p)
  else m ++ [(k, v)]

/-- Python `s[:-1]`: drop the final character of a string. -/
def strDropLast (s : String) : String :=
  String.mk s.data.dropLast

/-- Python `set(obj.keys()) == {"code", "label"}` from `flatten_for_table`:
the key set of the dict is exactly the pair code, label. -/
def isCodeLabel (fields : List (String × JVal)) : Bool :=
  fields.all (fun p => p.1 == "code" || p.1 == "label") &&
    fields.any (fun p => p.1 == "code") &&
    fields.any (fun p => p.1 == "label")

/-- Python `flat[key] = v` where `flat` is a dict built in insertion order. -/
def insertFlat (flat : List (String × JVal)) (k : String) (v : JVal) :
    List (String × JVal) :=
  if flat.any (fun p => p.1 == k) then
    flat.map (fun p => if p.1 == k then (k, v) else p)
  else flat ++ [(k, v)]

/-- The inner `_f(prefix, obj)` of `flatten_for_table` (src/app.py):
dicts whose key set is exactly code, label collapse (when `prefer_labels`)
to a single entry holding the label; other dicts run `for k, v in
obj.items()` recursing with `key.` appended to the prefix; lists run
`for i, v in enumerate(obj)` recursing with the index appended; scalars
are written at `prefix[:-1]`.  The item loops thread the `flat` dict, so
they are folds; `attach` only carries the membership evidence needed for
termination. -/
def flattenAux (pl : Bool) (pre : String) (obj : JVal)
    (flat : List (String × JVal)) : List (String × JVal) :=
  match obj with
  | JVal.jobj fields =>
      if pl && isCodeLabel fields then
        insertFlat flat (strDropLast pre) (dictGet fields "label")
      else fields.attach.foldl
        (fun fl f => flattenAux pl (pre ++ f.1.1 ++ ".") f.1.2 fl) flat
  | JVal.jarr elems =>
      (elems.attach.foldl
        (fun st v => (st.1 + 1, flattenAux pl (pre ++ toString st.1 ++ ".") v.1 st.2))
        ((0 : Nat), flat)).2
  | v => insertFlat flat (strDropLast pre) v
termination_by sizeOf obj
decreasing_by
  · obtain ⟨⟨k, v⟩, hf⟩ := f
    have h1 : sizeOf (k, v) < sizeOf fields := List.sizeOf_lt_of_mem hf
    simp only [Prod.mk.sizeOf_spec] at h1
    simp only [JVal.jobj.sizeOf_spec]
    omega
  · obtain ⟨v, hv⟩ := v
    have h1 : sizeOf v < sizeOf elems := List.sizeOf_lt_of_mem hv
    simp only [JVal.jarr.sizeOf_spec]
    omega

/-- The `for k, v in obj.items()` loop of `_f` over a dict that is not a
code-label pair, threading the `flat` dict. -/
def flattenFields (pl : Bool) (pre : String) (fields : List (String × JVal))
    (flat : List (String × JVal)) : List (String × JVal) :=
  fields.foldl (fun fl f => flattenAux pl (pre ++ f.1 ++ ".") f.2 fl) flat

/-- Python `flatten_for_table(record, prefer_labels=True)` from src/app.py. -/
def flatten_for_table (record : JVal) (prefer_labels : Bool := true) :
    List (String × JVal) :=
  flattenAux prefer_labels "" record []

/-- The inner `code(k)` helper of `fs_category`: fetch the stored answer;
if it is a dict take its `code` field, otherwise return the value itself
(`None` when the key is absent). -/
def codeOf (answers_dict : AnswerSet) (k : String) : JVal :=
  match dictGet answers_dict k with
  | JVal.jobj fields => dictGet fields "code"
  | v => v

/-- Python `x in (c1, c2, ...)` where the tuple holds ints: true exactly
when `x` is an int equal to one of them (`None` and strings compare unequal). -/
def pyInInts (v : JVal) (cs : List Int) : Bool :=
  match v with
  | JVal.jint n => cs.contains n
  | _ => false

/-- Python `x == n` against an int literal. -/
def pyEqInt (v : JVal) (n : Int) : Bool :=
  match v with
  | JVal.jint m => m == n
  | _ => false

/-- Python `fs_category(answers_dict)` from src/app.py: the sequential
`affirm += 1` increments followed by the category thresholds. -/
def fs_category (answers_dict : AnswerSet) : Nat × String :=
  let code := fun k => codeOf answers_dict k
  let affirm : Nat := 0
  let affirm := if pyInInts (code "fs1") [1, 2] then affirm + 1 else affirm
  let affirm := if pyInInts (code "fs2") [1, 2] then affirm + 1 else affirm
  let affirm := if pyEqInt (code "fs3") 1 then
      let affirm := affirm + 1
      if pyInInts (code "fs3a") [1, 2] then affirm + 1 else affirm
    else affirm
  let affirm := if pyEqInt (code "fs4") 1 then affirm + 1 else affirm
  let affirm := if pyEqInt (code "fs5") 1 then affirm + 1 else affirm
  let cat := if affirm ≤ 1 then "High or marginal food security"
    else if affirm ≤ 4 then "Low food security"
    else "Very low food security"
  (affirm, cat)

/-- Contribution of the fs1 item to the raw score. -/
def contrib_fs1 (a : AnswerSet) : Nat :=
  if pyInInts (codeOf a "fs1") [1, 2] then 1 else 0

/-- Contribution of the fs2 item to the raw score. -/
def contrib_fs2 (a : AnswerSet) : Nat :=
  if pyInInts (codeOf a "fs2") [1, 2] then 1 else 0

/-- Conditional bonus from the fs3a follow-up. -/
def contrib_fs3a (a : AnswerSet) : Nat :=
  if pyInInts (codeOf a "fs3a") [1, 2] then 1 else 0

/-- Contribution of the fs3 item, including the nested fs3a bonus. -/
def contrib_fs3 (a : AnswerSet) : Nat :=
  if pyEqInt (codeOf a "fs3") 1 then 1 + contrib_fs3a a else 0

/-- Contribution of the fs4 item. -/
def contrib_fs4 (a : AnswerSet) : Nat :=
  if pyEqInt (codeOf a "fs4") 1 then 1 else 0

/-- Contribution of the fs5 item. -/
def contrib_fs5 (a : AnswerSet) : Nat :=
  if pyEqInt (codeOf a "fs5") 1 then 1 else 0

/-- The food-security category as named by the spec. -/
inductive FoodSecCat where
  | high_or_marginal
  | low
  | very_low
  deriving DecidableEq

/-- The category string the code produces for each spec category name. -/
def catName : FoodSecCat → String
  | FoodSecCat.high_or_marginal => "High or marginal food security"
  | FoodSecCat.low => "Low food security"
  | FoodSecCat.very_low => "Very low food security"

/-- Spec-side definition (for the refinement in C1): the raw score as the
sum of the spec steps: +1 if fs1 code is in 1 or 2, +1 if fs2 code is in
1 or 2, +1 if fs3 code equals 1 plus an additional +1 if fs3a code is in
1 or 2, +1 if fs4 code equals 1, +1 if fs5 code equals 1. -/
def spec_affirm (a : AnswerSet) : Nat :=
  (if pyInInts (codeOf a "fs1") [1, 2] then 1 else 0)
  + (if pyInInts (codeOf a "fs2") [1, 2] then 1 else 0)
  + (if pyEqInt (codeOf a "fs3") 1 then
      1 + (if pyInInts (codeOf a "fs3a") [1, 2] then 1 else 0) else 0)
  + (if pyEqInt (codeOf a "fs4") 1 then 1 else 0)
  + (if pyEqInt (codeOf a "fs5") 1 then 1 else 0)

/-- Spec-side definition (for the refinement in C1): the category
thresholds: raw at most 1 is high or marginal, raw between 2 and 4 is
low, raw at least 5 is very low. -/
def spec_category (raw : Nat) : FoodSecCat :=
  if raw ≤ 1 then FoodSecCat.high_or_marginal
  else if 2 ≤ raw ∧ raw ≤ 4 then FoodSecCat.low
  else FoodSecCat.very_low

/-- A choice answer as the UI stores it: a dict of code and label. -/
def choiceAns (c : Int) (l : String) : JVal :=
  JVal.jobj [("code", JVal.jint c), ("label", JVal.jstr l)]

/-- All six food-security items answered affirmatively with code 1. -/
def ex_affirm_all : AnswerSet :=
  [("fs1", choiceAns 1 "Often true"), ("fs2", choiceAns 1 "Often true"),
   ("fs3", choiceAns 1 "Yes"), ("fs3a", choiceAns 1 "Almost every month"),
   ("fs4", choiceAns 1 "Yes"), ("fs5", choiceAns 1 "Yes")]

/-- All five base items answered negatively. -/
def ex_negative : AnswerSet :=
  [("fs1", choiceAns 3 "Never true"), ("fs2", choiceAns 3 "Never true"),
   ("fs3", choiceAns 2 "No"), ("fs4", choiceAns 2 "No"), ("fs5", choiceAns 2 "No")]

/-- An option entry as built by `opt(en, es, code=None)` in src/app.py. -/
structure Opt where
  code : Option Int
  en : String
  es : String

/-- Python `opt(en, es, code=None)` from src/app.py. -/
def opt (en es : String) (code : Option Int := none) : Opt :=
  ⟨code, en, es⟩

/-- A question as built by `add_q` in src/app.py.  The Python dict key
`section` is the field `qsection` here; `branch` is the optional
visibility predicate, whose evaluation may raise (modelled as `none`). -/
structure Question where
  id : String
  qsection : String
  text_en : String
  text_es : String
  qtype : String
  options : List Opt
  branch : Option (AnswerSet → Option Bool)

/-- Python `add_q(section, _id, en, es, qtype, options=None, branch=None)` from
src/app.py: appends the new question dict to the registry unconditionally. -/
def add_q (qs : List Question) (sec _id en es qtype : String)
    (options : List Opt := []) (branch : Option (AnswerSet → Option Bool) := none) :
    List Question :=
  qs ++ [⟨_id, sec, en, es, qtype, options, branch⟩]

/-- Python `is_visible(q, ans_dict)` from src/app.py: no branch means visible;
a branch that raises (modelled by `none`) also yields visible. -/
def is_visible (q : Question) (ans_dict : AnswerSet) : Bool :=
  match q.branch with
  | none => true
  | some br =>
    match br ans_dict with
    | some b => b
    | none => true

/-- A root question with no branch. -/
def q_root : Question := ⟨"q_root", "S", "", "", "radio", [], none⟩

/-- A question whose predicate always raises. -/
def q_raises : Question := ⟨"q_raises", "S", "", "", "radio", [], some (fun _ => none)⟩

/-- The `YN_DK` option set from src/app.py. -/
def YN_DK : List Opt :=
  [opt "Yes" "Sí" (some 1), opt "No" "No" (some 2),
   opt "Don\x27t know" "No sabe" (some 9),
   opt "Prefer not to answer" "Prefiere no responder" (some 7)]

/-- The branch lambda of `q2_last_visit_wellness` (src/app.py):
`a.get("q1_last_visit_any", dict()).get("code") in (1,2,3,4,5,6)`.
Calling `.get` on a non-dict value would raise, modelled by `none`. -/
def q2_branch (a : AnswerSet) : Option Bool :=
  match dictGetD a "q1_last_visit_any" (JVal.jobj []) with
  | JVal.jobj fields => some (pyInInts (dictGet fields "code") [1, 2, 3, 4, 5, 6])
  | _ => none

/-- The `q2_last_visit_wellness` question from src/app.py. -/
def q2_last_visit_wellness : Question :=
  ⟨"q2_last_visit_wellness", "Access to Health Services",
    "Was that visit a wellness/physical/general check-up?",
    "¿Esa visita fue un examen de bienestar/físico/revisión general?",
    "radio", YN_DK, some q2_branch⟩

/-- An answer set in which `q1_last_visit_any` is present but unanswered. -/
def ex_q1_unanswered : AnswerSet :=
  [("q1_last_visit_any", JVal.jobj [("code", JVal.jnull), ("label", JVal.jnull)])]

/-- One pass of the render loop of src/app.py for one question: if the
question is visible against the answers built so far, store its (possibly
unanswered) normalized value, otherwise skip it. -/
def renderStep (input : Question → JVal) (acc : AnswerSet) (q : Question) : AnswerSet :=
  if is_visible q acc then dictSet acc q.id (input q) else acc

/-- The render loop of src/app.py: build the live `answers` dict in
question order, consulting visibility against the answers built so far. -/
def buildAnswers (qs : List Question) (input : Question → JVal) : AnswerSet :=
  qs.foldl (renderStep input) []

/-- Python `record["sections"].setdefault(sec, dict())` from src/app.py. -/
def setdefaultSec (secs : List (String × List (String × JVal))) (sec : String) :
    List (String × List (String × JVal)) :=
  if secs.any (fun p => p.1 == sec) then secs else secs ++ [(sec, [])]

/-- One pass of the record-assembly loop at submit time (src/app.py):
`record["sections"].setdefault(sec, dict())` then, only when the id is a
key of `answers`, store `answers[q["id"]]` under the question id. -/
def assembleStep (answers : AnswerSet)
    (secs : List (String × List (String × JVal))) (q : Question) :
    List (String × List (String × JVal)) :=
  if answers.any (fun p => p.1 == q.id) then
    (setdefaultSec secs q.qsection).map (fun p =>
      if p.1 == q.qsection then (p.1, dictSet p.2 q.id (dictGet answers q.id)) else p)
  else setdefaultSec secs q.qsection

/-- The record-assembly loop over the whole registry. -/
def sectionsAssemble (qs : List Question) (answers : AnswerSet) :
    List (String × List (String × JVal)) :=
  qs.foldl (assembleStep answers) []

/-- A root question used in the C4 witness. -/
def q_wA : Question := ⟨"q_wA", "S", "", "", "radio", [], none⟩

/-- A question whose predicate is always false, used in the C4 witness. -/
def q_wB : Question := ⟨"q_wB", "S", "", "", "radio", [], some (fun _ => some false)⟩

/-- One merge step of header reconciliation: append the required header
unless it is already present. -/
def mergeHeader (merged : List String) (r : String) : List String :=
  if r ∈ merged then merged else merged ++ [r]

/-- Modelled from the spec: `reconcile_headers(existing_headers,
required_headers)` is not present under src/ (the sink-side helpers are
truncated out of app.py); per the spec the merge is append-only — every
header in `required_headers` not already present in `existing_headers` is
appended at the end, preserving the existing column order. -/
def reconcile_headers (existing_headers required_headers : List String) : List String :=
  required_headers.foldl mergeHeader existing_headers

/-- An answer value that flattens to a single entry: a code-label dict,
or a scalar (int, string, or `None`). -/
def isSimpleAnswer : JVal → Bool
  | JVal.jobj fields => isCodeLabel fields
  | JVal.jarr _ => false
  | _ => true

/-- The flat value `_f` writes for a simple answer: the label for a
code-label dict (the code is dropped), the value itself for a scalar. -/
def flatAnswer : JVal → JVal
  | JVal.jobj fields => dictGet fields "label"
  | v => v

/-- The submission record assembled at submit time (src/app.py): a dict
with `meta` (completed_at, instrument, language), `sections` (one dict of
answers per section), and `derived` (food-security raw score and
category). -/
def mkRecord (completed_at instrument language : String)
    (sections : List (String × List (String × JVal))) (raw : Nat) (cat : String) : JVal :=
  JVal.jobj
    [("meta", JVal.jobj [("completed_at", JVal.jstr completed_at),
        ("instrument", JVal.jstr instrument), ("language", JVal.jstr language)]),
     ("sections", JVal.jobj (sections.map (fun s => (s.1, JVal.jobj s.2)))),
     ("derived", JVal.jobj [("food_security_raw_score", JVal.jint (Int.ofNat raw)),
        ("food_security_category", JVal.jstr cat)])]

/-- The flat entries contributed by the `sections` part of a record: one
entry per stored answer, keyed by its dotted path, holding the label for
a choice answer and the scalar itself otherwise. -/
def sectionEntries (sections : List (String × List (String × JVal))) :
    List (String × JVal) :=
  sections.flatMap (fun s => s.2.map
    (fun q => ("sections." ++ s.1 ++ "." ++ q.1, flatAnswer q.2)))

/-- The full expected flat row of an assembled record: three meta
columns, one column per stored answer, two derived columns. -/
def flatRecordEntries (completed_at instrument language : String)
    (sections : List (String × List (String × JVal))) (raw : Nat) (cat : String) :
    List (String × JVal) :=
  [("meta.completed_at", JVal.jstr completed_at),
   ("meta.instrument", JVal.jstr instrument),
   ("meta.language", JVal.jstr language)]
  ++ sectionEntries sections
  ++ [("derived.food_security_raw_score", JVal.jint (Int.ofNat raw)),
      ("derived.food_security_category", JVal.jstr cat)]

/-- A one-section record with a single answered choice question. -/
def ex_record_one : JVal :=
  mkRecord "2026-01-01T00:00:00" "SDoH Bilingual Full (Streamlit) v1.0" "en"
    [("Food Insecurity", [("fs1", choiceAns 1 "Often true")])]
    1 "High or marginal food security"

/-- The same record with no answered questions in its section. -/
def ex_record_none : JVal :=
  mkRecord "2026-01-01T00:00:00" "SDoH Bilingual Full (Streamlit) v1.0" "en"
    [("Food Insecurity", [])]
    1 "High or marginal food security"

theorem fs_category_decomp (a : AnswerSet) :
    fs_category a =
      (contrib_fs1 a + contrib_fs2 a + contrib_fs3 a + contrib_fs4 a + contrib_fs5 a,
        if contrib_fs1 a + contrib_fs2 a + contrib_fs3 a + contrib_fs4 a + contrib_fs5 a ≤ 1
        then "High or marginal food security"
        else if contrib_fs1 a + contrib_fs2 a + contrib_fs3 a + contrib_fs4 a + contrib_fs5 a ≤ 4
        then "Low food security"
        else "Very low food security") := by
  unfold fs_category contrib_fs1 contrib_fs2 contrib_fs3 contrib_fs3a contrib_fs4 contrib_fs5
  cases h1 : pyInInts (codeOf a "fs1") [1, 2] <;>
    cases h2 : pyInInts (codeOf a "fs2") [1, 2] <;>
    cases h3 : pyEqInt (codeOf a "fs3") 1 <;>
    cases h3a : pyInInts (codeOf a "fs3a") [1, 2] <;>
    cases h4 : pyEqInt (codeOf a "fs4") 1 <;>
    cases h5 : pyEqInt (codeOf a "fs5") 1 <;>
    simp [h1, h2, h3, h3a, h4, h5]

theorem spec_affirm_eq_contribs (a : AnswerSet) :
    spec_affirm a =
      contrib_fs1 a + contrib_fs2 a + contrib_fs3 a + contrib_fs4 a + contrib_fs5 a := rfl

theorem catName_spec (n : Nat) :
    (if n ≤ 1 then "High or marginal food security"
      else if n ≤ 4 then "Low food security"
      else "Very low food security") = catName (spec_category n) := by
  unfold spec_category catName
  split_ifs <;> first | rfl | omega

/-- Claim C1: for every answer set, `fs_category` computes the raw score
exactly by the spec steps and maps it to the category by the thresholds
(raw at most 1 high or marginal, 2 to 4 low, at least 5 very low); in
particular all six items affirmed with code 1 yields raw 6 and very low,
and all-negative answers yield raw 0 and high or marginal. -/
theorem C1_fs_category_spec (a : AnswerSet) :
    fs_category a = (spec_affirm a, catName (spec_category (spec_affirm a))) ∧
    fs_category ex_affirm_all = (6, catName FoodSecCat.very_low) ∧
    fs_category ex_negative = (0, catName FoodSecCat.high_or_marginal) := by
  refine ⟨?_, by decide, by decide⟩
  rw [fs_category_decomp, ← spec_affirm_eq_contribs, catName_spec]

theorem contrib_fs1_le (a : AnswerSet) : contrib_fs1 a ≤ 1 := by
  unfold contrib_fs1; split <;> omega

theorem contrib_fs2_le (a : AnswerSet) : contrib_fs2 a ≤ 1 := by
  unfold contrib_fs2; split <;> omega

theorem contrib_fs3_le (a : AnswerSet) : contrib_fs3 a ≤ 2 := by
  unfold contrib_fs3 contrib_fs3a
  cases h : pyEqInt (codeOf a "fs3") 1 <;>
    cases h2 : pyInInts (codeOf a "fs3a") [1, 2] <;> simp [h, h2]

theorem contrib_fs4_le (a : AnswerSet) : contrib_fs4 a ≤ 1 := by
  unfold contrib_fs4; split <;> omega

theorem contrib_fs5_le (a : AnswerSet) : contrib_fs5 a ≤ 1 := by
  unfold contrib_fs5; split <;> omega

theorem fs_category_fst (a : AnswerSet) :
    (fs_category a).1 =
      contrib_fs1 a + contrib_fs2 a + contrib_fs3 a + contrib_fs4 a + contrib_fs5 a := by
  rw [fs_category_decomp]

/-- Claim C8: for every answers mapping the scorer is a total function
whose raw score is the sum of the five item contributions, the raw score
is at most 6, and a missing or unanswered item (code `None`) contributes
0 to the score. -/
theorem C8_fs_total_bounded (a : AnswerSet) :
    (fs_category a).1 =
      contrib_fs1 a + contrib_fs2 a + contrib_fs3 a + contrib_fs4 a + contrib_fs5 a ∧
    (fs_category a).1 ≤ 6 ∧
    (codeOf a "fs1" = JVal.jnull → contrib_fs1 a = 0) ∧
    (codeOf a "fs2" = JVal.jnull → contrib_fs2 a = 0) ∧
    (codeOf a "fs3" = JVal.jnull → contrib_fs3 a = 0) ∧
    (codeOf a "fs3a" = JVal.jnull → contrib_fs3a a = 0) ∧
    (codeOf a "fs4" = JVal.jnull → contrib_fs4 a = 0) ∧
    (codeOf a "fs5" = JVal.jnull → contrib_fs5 a = 0) := by
  refine ⟨fs_category_fst a, ?_, ?_, ?_, ?_, ?_, ?_, ?_⟩
  · have h1 := contrib_fs1_le a
    have h2 := contrib_fs2_le a
    have h3 := contrib_fs3_le a
    have h4 := contrib_fs4_le a
    have h5 := contrib_fs5_le a
    have hd := fs_category_fst a
    omega
  · intro h; simp [contrib_fs1, h, pyInInts]
  · intro h; simp [contrib_fs2, h, pyInInts]
  · intro h; simp [contrib_fs3, h, pyEqInt]
  · intro h; simp [contrib_fs3a, h, pyInInts]
  · intro h; simp [contrib_fs4, h, pyEqInt]
  · intro h; simp [contrib_fs5, h, pyEqInt]

theorem C8_fs_total_bounded_witness :
    (fs_category []).1 ≤ 6 ∧ contrib_fs1 [] = 0 ∧ contrib_fs3a [] = 0 :=
  ⟨(C8_fs_total_bounded []).2.1, (C8_fs_total_bounded []).2.2.1 rfl,
    (C8_fs_total_bounded []).2.2.2.2.1 rfl⟩

theorem pyEqInt_true_iff (v : JVal) (n : Int) :
    pyEqInt v n = true ↔ v = JVal.jint n := by
  cases v <;> simp [pyEqInt]

theorem pyInInts_of_contrib_fs1 (a : AnswerSet) (h : contrib_fs1 a = 1) :
    pyInInts (codeOf a "fs1") [1, 2] = true := by
  by_contra hc
  simp [contrib_fs1, Bool.not_eq_true] at h hc
  simp [hc] at h

/-- Claim C10: for every answers mapping, a raw score of 5 or more forces
the fs3 code to equal 1, and a raw score of 6 is reachable only when in
addition the fs3a code is in 1 or 2 and all four other items are affirmed. -/
theorem C10_very_low_needs_fs3 (a : AnswerSet) (h : 5 ≤ (fs_category a).1) :
    codeOf a "fs3" = JVal.jint 1 ∧
    ((fs_category a).1 = 6 →
      pyInInts (codeOf a "fs3a") [1, 2] = true ∧
      pyInInts (codeOf a "fs1") [1, 2] = true ∧
      pyInInts (codeOf a "fs2") [1, 2] = true ∧
      codeOf a "fs4" = JVal.jint 1 ∧
      codeOf a "fs5" = JVal.jint 1) := by
  have hd := fs_category_fst a
  have h1 := contrib_fs1_le a
  have h2 := contrib_fs2_le a
  have h3 := contrib_fs3_le a
  have h4 := contrib_fs4_le a
  have h5 := contrib_fs5_le a
  have hfs3 : pyEqInt (codeOf a "fs3") 1 = true := by
    by_contra hc
    simp [Bool.not_eq_true] at hc
    have : contrib_fs3 a = 0 := by simp [contrib_fs3, hc]
    omega
  refine ⟨(pyEqInt_true_iff _ _).mp hfs3, fun h6 => ?_⟩
  have hc1 : contrib_fs1 a = 1 := by omega
  have hc2 : contrib_fs2 a = 1 := by omega
  have hc3 : contrib_fs3 a = 2 := by omega
  have hc4 : contrib_fs4 a = 1 := by omega
  have hc5 : contrib_fs5 a = 1 := by omega
  have hfs3a : pyInInts (codeOf a "fs3a") [1, 2] = true := by
    by_contra hc
    simp [Bool.not_eq_true] at hc
    simp [contrib_fs3, contrib_fs3a, hfs3, hc] at hc3
  have hfs4 : pyEqInt (codeOf a "fs4") 1 = true := by
    by_contra hc
    simp [Bool.not_eq_true] at hc
    simp [contrib_fs4, hc] at hc4
  have hfs5 : pyEqInt (codeOf a "fs5") 1 = true := by
    by_contra hc
    simp [Bool.not_eq_true] at hc
    simp [contrib_fs5, hc] at hc5
  have hfs2 : pyInInts (codeOf a "fs2") [1, 2] = true := by
    by_contra hc
    simp [Bool.not_eq_true] at hc
    simp [contrib_fs2, hc] at hc2
  exact ⟨hfs3a, pyInInts_of_contrib_fs1 a hc1, hfs2,
    (pyEqInt_true_iff _ _).mp hfs4, (pyEqInt_true_iff _ _).mp hfs5⟩

theorem C10_very_low_needs_fs3_witness :
    codeOf ex_affirm_all "fs3" = JVal.jint 1 :=
  (C10_very_low_needs_fs3 ex_affirm_all (by decide)).1

/-- Claim C3: `is_visible` returns true unconditionally when the question
has no visibility predicate, and when the predicate raises it fails open
to visible instead of propagating the error. -/
theorem C3_is_visible_fail_open (q : Question) (a : AnswerSet) :
    (q.branch = none → is_visible q a = true) ∧
    (∀ br, q.branch = some br → br a = none → is_visible q a = true) := by
  constructor
  · intro h; simp [is_visible, h]
  · intro br h hb; simp [is_visible, h, hb]

theorem C3_is_visible_fail_open_witness :
    is_visible q_root [] = true ∧ is_visible q_raises [] = true :=
  ⟨(C3_is_visible_fail_open q_root []).1 rfl,
    (C3_is_visible_fail_open q_raises []).2 (fun _ => none) rfl rfl⟩

/-- Claim C5: when the `q1_last_visit_any` answer has code `None`, the
`q2_last_visit_wellness` predicate evaluates to false without raising
(`None` is not in the tuple 1..6), so `is_visible` returns false; this is
the strict-predicate path, not the exception fail-open path. -/
theorem C5_q2_null_not_visible (a : AnswerSet) (fields : List (String × JVal))
    (h1 : dictGetD a "q1_last_visit_any" (JVal.jobj []) = JVal.jobj fields)
    (h2 : dictGet fields "code" = JVal.jnull) :
    q2_branch a = some false ∧ is_visible q2_last_visit_wellness a = false := by
  have hb : q2_branch a = some false := by
    unfold q2_branch
    rw [h1]
    show some (pyInInts (dictGet fields "code") [1, 2, 3, 4, 5, 6]) = some false
    rw [h2]
    rfl
  exact ⟨hb, by simp [is_visible, q2_last_visit_wellness, hb]⟩

theorem C5_q2_null_not_visible_witness :
    q2_branch ex_q1_unanswered = some false ∧
    is_visible q2_last_visit_wellness ex_q1_unanswered = false :=
  C5_q2_null_not_visible ex_q1_unanswered
    [("code", JVal.jnull), ("label", JVal.jnull)] rfl rfl

/-- Counterexample to claim C6: `add_q` has no duplicate-id check; adding
the same id twice returns a two-element registry with the id repeated,
instead of failing with `DuplicateIdError`. -/
theorem C6_counterexample_duplicate_appended :
    (add_q (add_q [] "Access to Health Services" "dup_q" "A" "B" "radio")
        "Access to Health Services" "dup_q" "C" "D" "radio").map Question.id
      = ["dup_q", "dup_q"] ∧
    (add_q (add_q [] "Access to Health Services" "dup_q" "A" "B" "radio")
        "Access to Health Services" "dup_q" "C" "D" "radio").length = 2 :=
  ⟨rfl, rfl⟩

/-- Claim C6 as amended: registering a question whose id is already
present appends a second question with the same id (the registry grows by
one and then holds at least two questions with that id); no error is
raised and no duplicate check exists. -/
theorem C6_amended_add_q_appends (qs : List Question)
    (sec _id en es qtype : String) (options : List Opt)
    (branch : Option (AnswerSet → Option Bool))
    (h : ∃ q ∈ qs, q.id = _id) :
    (add_q qs sec _id en es qtype options branch).length = qs.length + 1 ∧
    2 ≤ (add_q qs sec _id en es qtype options branch).countP (fun q => q.id == _id) := by
  refine ⟨by simp [add_q], ?_⟩
  have h1 : 0 < qs.countP (fun q => q.id == _id) := by
    rw [List.countP_pos_iff]
    obtain ⟨q, hq, he⟩ := h
    exact ⟨q, hq, by simp [he]⟩
  have h2 : (add_q qs sec _id en es qtype options branch).countP (fun q => q.id == _id)
      = qs.countP (fun q => q.id == _id) + 1 := by
    simp [add_q, List.countP_append, List.countP_cons]
  omega

theorem C6_amended_add_q_appends_witness :
    (add_q (add_q [] "S" "w_dup" "A" "B" "radio") "S" "w_dup" "C" "D" "radio" [] none).length
      = (add_q [] "S" "w_dup" "A" "B" "radio").length + 1 ∧
    2 ≤ (add_q (add_q [] "S" "w_dup" "A" "B" "radio") "S" "w_dup" "C" "D" "radio" [] none).countP
        (fun q => q.id == "w_dup") :=
  C6_amended_add_q_appends (add_q [] "S" "w_dup" "A" "B" "radio")
    "S" "w_dup" "C" "D" "radio" [] none
    ⟨⟨"w_dup", "S", "A", "B", "radio", [], none⟩, by simp [add_q, opt], rfl⟩

theorem dictSet_keys_sub (m : List (String × JVal)) (k : String) (v : JVal)
    (x : String) (hx : x ∈ (dictSet m k v).map Prod.fst) :
    x ∈ m.map Prod.fst ∨ x = k := by
  unfold dictSet at hx
  split at hx
  · simp only [List.map_map, List.mem_map, Function.comp] at hx
    obtain ⟨p, hp, hfst⟩ := hx
    by_cases hpk : (p.1 == k) = true
    · rw [if_pos hpk] at hfst
      exact Or.inr hfst.symm
    · rw [if_neg hpk] at hfst
      exact Or.inl (hfst ▸ List.mem_map_of_mem Prod.fst hp)
  · rw [List.map_append] at hx
    rcases List.mem_append.mp hx with h | h
    · exact Or.inl h
    · simp only [List.map_cons, List.map_nil, List.mem_singleton] at h
      exact Or.inr h

theorem buildAnswers_keys (input : Question → JVal) (qs : List Question) :
    ∀ (acc : AnswerSet) (x : String),
      x ∈ (qs.foldl (renderStep input) acc).map Prod.fst →
      x ∈ acc.map Prod.fst ∨ x ∈ qs.map Question.id := by
  induction qs with
  | nil => intro acc x hx; exact Or.inl hx
  | cons q rest ih =>
    intro acc x hx
    simp only [List.foldl_cons] at hx
    rcases ih (renderStep input acc q) x hx with h | h
    · unfold renderStep at h
      split at h
      · rcases dictSet_keys_sub _ _ _ _ h with h' | h'
        · exact Or.inl h'
        · right; simp [h']
      · exact Or.inl h
    · right; simp [h]

theorem any_key_mem (m : List (String × JVal)) (k : String)
    (h : m.any (fun p => p.1 == k) = true) : k ∈ m.map Prod.fst := by
  simp only [List.any_eq_true, beq_iff_eq] at h
  obtain ⟨p, hp, he⟩ := h
  exact he ▸ List.mem_map_of_mem Prod.fst hp

theorem setdefaultSec_inv (answers : AnswerSet)
    (secs : List (String × List (String × JVal))) (sec : String)
    (hinv : ∀ s ∈ secs, ∀ e ∈ s.2, e.1 ∈ answers.map Prod.fst) :
    ∀ s ∈ setdefaultSec secs sec, ∀ e ∈ s.2, e.1 ∈ answers.map Prod.fst := by
  unfold setdefaultSec
  split
  · exact hinv
  · intro s hs e he
    rcases List.mem_append.mp hs with h | h
    · exact hinv s h e he
    · simp only [List.mem_singleton] at h
      rw [h] at he
      simp at he

theorem assembleStep_inv (answers : AnswerSet)
    (secs : List (String × List (String × JVal))) (q : Question)
    (hinv : ∀ s ∈ secs, ∀ e ∈ s.2, e.1 ∈ answers.map Prod.fst) :
    ∀ s ∈ assembleStep answers secs q, ∀ e ∈ s.2, e.1 ∈ answers.map Prod.fst := by
  have hinv2 := setdefaultSec_inv answers secs q.qsection hinv
  intro s hs e he
  unfold assembleStep at hs
  split at hs
  · simp only [List.mem_map] at hs
    obtain ⟨p, hp, hps⟩ := hs
    by_cases hpq : (p.1 == q.qsection) = true
    · rw [if_pos hpq] at hps
      rw [← hps] at he
      simp only at he
      have he1 : e.1 ∈ (dictSet p.2 q.id (dictGet answers q.id)).map Prod.fst :=
        List.mem_map_of_mem Prod.fst he
      rcases dictSet_keys_sub _ _ _ _ he1 with h | h
      · obtain ⟨e', he', hee⟩ := List.mem_map.mp h
        exact hee ▸ hinv2 p hp e' he'
      · rename_i hguard
        exact h ▸ any_key_mem answers q.id hguard
    · rw [if_neg hpq] at hps
      exact hinv2 s (hps ▸ hp) e he
  · exact hinv2 s hs e he

theorem sectionsAssemble_inv (qs : List Question) (answers : AnswerSet) :
    ∀ s ∈ sectionsAssemble qs answers, ∀ e ∈ s.2, e.1 ∈ answers.map Prod.fst := by
  unfold sectionsAssemble
  suffices h : ∀ (secs0 : List (String × List (String × JVal))),
      (∀ s ∈ secs0, ∀ e ∈ s.2, e.1 ∈ answers.map Prod.fst) →
      ∀ s ∈ qs.foldl (assembleStep answers) secs0, ∀ e ∈ s.2,
        e.1 ∈ answers.map Prod.fst by
    exact h [] (by simp)
  induction qs with
  | nil => intro secs0 h0; simpa using h0
  | cons q rest ih =>
    intro secs0 h0
    simp only [List.foldl_cons]
    exact ih (assembleStep answers secs0 q) (assembleStep_inv answers secs0 q h0)

/-- Claim C4: in the submission pipeline, a question whose visibility
predicate evaluates false against the answers built so far contributes no
answer: its id is absent from the final answers mapping (given globally
unique question ids), and every id stored in the assembled record
sections is a key of the answers mapping. -/
theorem C4_hidden_not_answered (qs : List Question) (input : Question → JVal)
    (l1 l2 : List Question) (q : Question)
    (hsplit : qs = l1 ++ q :: l2)
    (hnodup : (qs.map Question.id).Nodup)
    (hinvis : is_visible q (buildAnswers l1 input) = false) :
    q.id ∉ (buildAnswers qs input).map Prod.fst ∧
    ∀ s ∈ sectionsAssemble qs (buildAnswers qs input), ∀ e ∈ s.2,
      e.1 ∈ (buildAnswers qs input).map Prod.fst := by
  subst hsplit
  refine ⟨?_, sectionsAssemble_inv _ _⟩
  simp only [List.map_append, List.map_cons, List.nodup_append, List.nodup_cons] at hnodup
  obtain ⟨hn1, ⟨hql2, hn2⟩, hdisj⟩ := hnodup
  have hql1 : q.id ∉ l1.map Question.id := fun hmem =>
    hdisj hmem (List.mem_cons_self _ _)
  intro hmem
  unfold buildAnswers at hinvis hmem
  rw [List.foldl_append, List.foldl_cons] at hmem
  have hstep : renderStep input (List.foldl (renderStep input) [] l1) q
      = List.foldl (renderStep input) [] l1 := by
    show (if is_visible q (List.foldl (renderStep input) [] l1) = true then
        dictSet (List.foldl (renderStep input) [] l1) q.id (input q)
      else List.foldl (renderStep input) [] l1) = List.foldl (renderStep input) [] l1
    rw [hinvis]
    simp
  rw [hstep] at hmem
  rcases buildAnswers_keys input l2 _ q.id hmem with h | h
  · rcases buildAnswers_keys input l1 [] q.id h with h' | h'
    · simp at h'
    · exact hql1 h'
  · exact hql2 h

theorem C4_hidden_not_answered_witness :
    q_wB.id ∉ (buildAnswers [q_wA, q_wB] (fun _ => JVal.jnull)).map Prod.fst :=
  (C4_hidden_not_answered [q_wA, q_wB] (fun _ => JVal.jnull) [q_wA] [] q_wB rfl
    (by decide) rfl).1

theorem reconcile_fold_prefix (R : List String) :
    ∀ acc : List String, acc <+: R.foldl mergeHeader acc := by
  induction R with
  | nil => intro acc; exact List.prefix_rfl
  | cons r rest ih =>
    intro acc
    rw [List.foldl_cons]
    refine List.IsPrefix.trans ?_ (ih (mergeHeader acc r))
    unfold mergeHeader
    split
    · exact List.prefix_rfl
    · exact ⟨[r], rfl⟩

theorem mergeHeader_mem_eq (acc : List String) (r : String) (h : r ∈ acc) :
    mergeHeader acc r = acc := by
  unfold mergeHeader; rw [if_pos h]

theorem mergeHeader_not_mem_eq (acc : List String) (r : String) (h : r ∉ acc) :
    mergeHeader acc r = acc ++ [r] := by
  unfold mergeHeader; rw [if_neg h]

theorem reconcile_fold_mem (R : List String) :
    ∀ (acc : List String) (x : String),
      x ∈ R.foldl mergeHeader acc ↔ x ∈ acc ∨ x ∈ R := by
  induction R with
  | nil => simp
  | cons r rest ih =>
    intro acc x
    rw [List.foldl_cons]
    by_cases hr : r ∈ acc
    · rw [mergeHeader_mem_eq acc r hr, ih]
      simp only [List.mem_cons]
      constructor
      · rintro (h | h)
        · exact Or.inl h
        · exact Or.inr (Or.inr h)
      · rintro (h | h | h)
        · exact Or.inl h
        · exact Or.inl (h ▸ hr)
        · exact Or.inr h
    · rw [mergeHeader_not_mem_eq acc r hr, ih]
      simp [List.mem_append, List.mem_cons, or_assoc]

theorem reconcile_fold_fixed (R : List String) :
    ∀ acc : List String, (∀ r ∈ R, r ∈ acc) → R.foldl mergeHeader acc = acc := by
  induction R with
  | nil => intro acc _; rfl
  | cons r rest ih =>
    intro acc h
    rw [List.foldl_cons]
    have hr : r ∈ acc := h r (List.mem_cons_self r rest)
    rw [mergeHeader_mem_eq acc r hr]
    exact ih acc (fun x hx => h x (List.mem_cons_of_mem r hx))

theorem reconcile_fold_append (R : List String) :
    ∀ acc : List String, ∃ t, R.foldl mergeHeader acc = acc ++ t ∧
      ∀ x ∈ t, x ∈ R ∧ x ∉ acc := by
  induction R with
  | nil => intro acc; exact ⟨[], by simp, by simp⟩
  | cons r rest ih =>
    intro acc
    rw [List.foldl_cons]
    by_cases hr : r ∈ acc
    · rw [mergeHeader_mem_eq acc r hr]
      obtain ⟨t, ht, hprop⟩ := ih acc
      exact ⟨t, ht, fun x hx =>
        ⟨List.mem_cons_of_mem r (hprop x hx).1, (hprop x hx).2⟩⟩
    · rw [mergeHeader_not_mem_eq acc r hr]
      obtain ⟨t, ht, hprop⟩ := ih (acc ++ [r])
      refine ⟨r :: t, by rw [ht]; simp, ?_⟩
      intro x hx
      rcases List.mem_cons.mp hx with h | h
      · exact ⟨h ▸ List.mem_cons_self r rest, h ▸ hr⟩
      · obtain ⟨h1, h2⟩ := hprop x h
        exact ⟨List.mem_cons_of_mem r h1, fun hc => h2 (List.mem_append_left _ hc)⟩

/-- Claim C7: header reconciliation is idempotent, and its result is an
order-preserving extension of the existing headers: the existing headers
come first in their original order, followed by exactly those required
headers not already present. -/
theorem C7_reconcile_headers_idempotent_extension (H R : List String) :
    reconcile_headers (reconcile_headers H R) R = reconcile_headers H R ∧
    H <+: reconcile_headers H R ∧
    ∃ t, reconcile_headers H R = H ++ t ∧
      (∀ x ∈ t, x ∈ R ∧ x ∉ H) ∧
      (∀ x ∈ R, x ∉ H → x ∈ t) := by
  refine ⟨?_, reconcile_fold_prefix R H, ?_⟩
  · apply reconcile_fold_fixed
    intro r hr
    unfold reconcile_headers
    rw [reconcile_fold_mem]
    exact Or.inr hr
  · obtain ⟨t, ht, hp⟩ := reconcile_fold_append R H
    refine ⟨t, ht, hp, ?_⟩
    intro x hx hxH
    have hmem : x ∈ H ++ t := by
      rw [← ht, reconcile_fold_mem]
      exact Or.inr hx
    rcases List.mem_append.mp hmem with h | h
    · exact absurd h hxH
    · exact h

theorem foldl_attach_flatten (pl : Bool) (pre : String)
    (fields : List (String × JVal)) (flat : List (String × JVal)) :
    fields.attach.foldl (fun fl f => flattenAux pl (pre ++ f.1.1 ++ ".") f.1.2 fl) flat
      = flattenFields pl pre fields flat := by
  unfold flattenFields
  induction fields generalizing flat with
  | nil => simp
  | cons a l ih =>
    rw [List.attach_cons, List.foldl_cons, List.foldl_cons, List.foldl_map]
    exact ih _

theorem flattenAux_jobj_codeLabel (pre : String) (fields : List (String × JVal))
    (flat : List (String × JVal)) (h : isCodeLabel fields = true) :
    flattenAux true pre (JVal.jobj fields) flat
      = insertFlat flat (strDropLast pre) (dictGet fields "label") := by
  rw [flattenAux.eq_def]
  show (if (true && isCodeLabel fields) = true then
      insertFlat flat (strDropLast pre) (dictGet fields "label")
    else fields.attach.foldl
      (fun fl f => flattenAux true (pre ++ f.1.1 ++ ".") f.1.2 fl) flat) = _
  rw [h]
  rfl

theorem flattenAux_jobj_fields (pre : String) (fields : List (String × JVal))
    (flat : List (String × JVal)) (h : isCodeLabel fields = false) :
    flattenAux true pre (JVal.jobj fields) flat = flattenFields true pre fields flat := by
  rw [flattenAux.eq_def]
  show (if (true && isCodeLabel fields) = true then
      insertFlat flat (strDropLast pre) (dictGet fields "label")
    else fields.attach.foldl
      (fun fl f => flattenAux true (pre ++ f.1.1 ++ ".") f.1.2 fl) flat) = _
  rw [h]
  show fields.attach.foldl
      (fun fl f => flattenAux true (pre ++ f.1.1 ++ ".") f.1.2 fl) flat = _
  exact foldl_attach_flatten true pre fields flat

theorem flattenFields_nil (pl : Bool) (pre : String) (flat : List (String × JVal)) :
    flattenFields pl pre [] flat = flat := rfl

theorem flattenFields_cons (pl : Bool) (pre k : String) (v : JVal)
    (rest : List (String × JVal)) (flat : List (String × JVal)) :
    flattenFields pl pre ((k, v) :: rest) flat
      = flattenFields pl pre rest (flattenAux pl (pre ++ k ++ ".") v flat) := rfl

theorem flattenAux_simple (v : JVal) (h : isSimpleAnswer v = true)
    (pre : String) (flat : List (String × JVal)) :
    flattenAux true pre v flat = insertFlat flat (strDropLast pre) (flatAnswer v) := by
  cases v with
  | jobj fields => exact flattenAux_jobj_codeLabel pre fields flat h
  | jarr xs => simp [isSimpleAnswer] at h
  | jnull => rw [flattenAux.eq_def]; rfl
  | jint n => rw [flattenAux.eq_def]; rfl
  | jstr s => rw [flattenAux.eq_def]; rfl

theorem insertFlat_fresh (flat : List (String × JVal)) (k : String) (v : JVal)
    (h : k ∉ flat.map Prod.fst) : insertFlat flat k v = flat ++ [(k, v)] := by
  unfold insertFlat
  have hc : ¬ (flat.any (fun p => p.1 == k) = true) := by
    intro hc
    simp only [List.any_eq_true, beq_iff_eq] at hc
    obtain ⟨p, hp, he⟩ := hc
    exact h (he ▸ List.mem_map_of_mem Prod.fst hp)
  rw [if_neg hc]

theorem strDropLast_concat (s : String) : strDropLast (s ++ ".") = s := by
  unfold strDropLast
  rw [show (s ++ ".").data = s.data ++ ['.'] from by simp [String.data_append]]
  rw [List.dropLast_concat]

/-- Claim C9: with `prefer_labels` at its default true, a dict whose key
set is exactly code, label flattens to a single entry holding only the
label; the code value is dropped and does not influence the result, at
any nesting prefix. -/
theorem C9_prefer_labels_drops_code (pre : String) (flat : List (String × JVal))
    (c l : JVal) :
    flattenAux true pre (JVal.jobj [("code", c), ("label", l)]) flat
      = insertFlat flat (strDropLast pre) l ∧
    (∀ fields, isCodeLabel fields = true →
      flattenAux true pre (JVal.jobj fields) flat
        = insertFlat flat (strDropLast pre) (dictGet fields "label")) ∧
    flatten_for_table (JVal.jobj [("q", JVal.jobj [("code", c), ("label", l)])])
      = [("q", l)] := by
  refine ⟨?_, fun fields h => flattenAux_jobj_codeLabel pre fields flat h, ?_⟩
  · exact flattenAux_jobj_codeLabel pre _ flat rfl
  · unfold flatten_for_table
    rw [flattenAux_jobj_fields ""
        [("q", JVal.jobj [("code", c), ("label", l)])] [] rfl,
      flattenFields_cons, flattenFields_nil,
      flattenAux_jobj_codeLabel ("" ++ "q" ++ ".")
        [("code", c), ("label", l)] [] rfl]
    rfl

theorem C9_prefer_labels_drops_code_witness :
    flattenAux true "q1." (JVal.jobj [("label", JVal.jstr "Yes"), ("code", JVal.jint 1)]) []
      = insertFlat [] (strDropLast "q1.")
          (dictGet [("label", JVal.jstr "Yes"), ("code", JVal.jint 1)] "label") :=
  (C9_prefer_labels_drops_code "q1." [] (JVal.jint 1) (JVal.jstr "Yes")).2.1
    [("label", JVal.jstr "Yes"), ("code", JVal.jint 1)] rfl

theorem sectionEntries_nil : sectionEntries [] = [] := rfl

theorem sectionEntries_cons (s : String × List (String × JVal))
    (rest : List (String × List (String × JVal))) :
    sectionEntries (s :: rest)
      = s.2.map (fun q => ("sections." ++ s.1 ++ "." ++ q.1, flatAnswer q.2))
        ++ sectionEntries rest := by
  simp [sectionEntries]

theorem flattenFields_answers (pre : String) (qs : List (String × JVal)) :
    ∀ flat : List (String × JVal),
      (∀ q ∈ qs, isSimpleAnswer q.2 = true) →
      (flat.map Prod.fst ++ qs.map (fun q => pre ++ q.1)).Nodup →
      flattenFields true pre qs flat
        = flat ++ qs.map (fun q => (pre ++ q.1, flatAnswer q.2)) := by
  induction qs with
  | nil => intro flat _ _; simp [flattenFields_nil]
  | cons q rest ih =>
    intro flat hsimp hnd
    obtain ⟨k, v⟩ := q
    simp only [List.map_cons] at hnd
    rw [flattenFields_cons,
      flattenAux_simple v (hsimp (k, v) (List.mem_cons_self _ _)) (pre ++ k ++ ".") flat,
      strDropLast_concat]
    have hfresh : (pre ++ k) ∉ flat.map Prod.fst := by
      intro hm
      rw [List.nodup_append] at hnd
      exact hnd.2.2 hm (List.mem_cons_self _ _)
    rw [insertFlat_fresh flat (pre ++ k) (flatAnswer v) hfresh]
    rw [ih (flat ++ [(pre ++ k, flatAnswer v)])
      (fun q hq => hsimp q (List.mem_cons_of_mem _ hq)) ?_]
    · simp
    · simp only [List.map_append, List.map_cons, List.map_nil]
      rw [List.append_assoc]
      simpa using hnd

theorem flattenFields_sections (sections : List (String × List (String × JVal))) :
    ∀ flat : List (String × JVal),
      (∀ s ∈ sections, isCodeLabel s.2 = false) →
      (∀ s ∈ sections, ∀ q ∈ s.2, isSimpleAnswer q.2 = true) →
      (flat.map Prod.fst ++ (sectionEntries sections).map Prod.fst).Nodup →
      flattenFields true "sections." (sections.map (fun s => (s.1, JVal.jobj s.2))) flat
        = flat ++ sectionEntries sections := by
  induction sections with
  | nil => intro flat _ _ _; simp [sectionEntries_nil, flattenFields_nil]
  | cons s rest ih =>
    intro flat hcl hsimp hnd
    obtain ⟨secName, qs⟩ := s
    rw [sectionEntries_cons] at hnd
    have hmm : (qs.map (fun q =>
          ("sections." ++ (secName, qs).1 ++ "." ++ q.1, flatAnswer q.2))).map Prod.fst
        = qs.map (fun q => ("sections." ++ secName ++ ".") ++ q.1) := by
      rw [List.map_map]
      rfl
    rw [List.map_append, hmm] at hnd
    rw [List.map_cons]
    rw [show ((((secName, qs).1 : String), JVal.jobj ((secName, qs).2)))
      = (secName, JVal.jobj qs) from rfl]
    rw [flattenFields_cons]
    rw [flattenAux_jobj_fields ("sections." ++ secName ++ ".") qs flat
      (hcl (secName, qs) (List.mem_cons_self _ _))]
    rw [flattenFields_answers ("sections." ++ secName ++ ".") qs flat
      (fun q hq => hsimp (secName, qs) (List.mem_cons_self _ _) q hq)
      (hnd.sublist ((List.sublist_append_left _ _).append_left _))]
    rw [ih (flat ++ qs.map (fun q =>
        (("sections." ++ secName ++ ".") ++ q.1, flatAnswer q.2)))
      (fun s hs => hcl s (List.mem_cons_of_mem _ hs))
      (fun s hs => hsimp s (List.mem_cons_of_mem _ hs)) ?_]
    · rw [sectionEntries_cons]
      rw [List.append_assoc]
    · rw [List.map_append]
      rw [show (qs.map (fun q =>
            (("sections." ++ secName ++ ".") ++ q.1, flatAnswer q.2))).map Prod.fst
          = qs.map (fun q => ("sections." ++ secName ++ ".") ++ q.1) from by
        rw [List.map_map]; rfl]
      rw [List.append_assoc]
      exact hnd

theorem flatten_mkRecord (completed_at instrument language : String)
    (sections : List (String × List (String × JVal))) (raw : Nat) (cat : String)
    (hnames : isCodeLabel (sections.map (fun s => (s.1, JVal.jobj s.2))) = false)
    (hcl : ∀ s ∈ sections, isCodeLabel s.2 = false)
    (hsimple : ∀ s ∈ sections, ∀ q ∈ s.2, isSimpleAnswer q.2 = true)
    (hnodup : ((flatRecordEntries completed_at instrument language sections raw cat).map
      Prod.fst).Nodup) :
    flatten_for_table (mkRecord completed_at instrument language sections raw cat)
      = flatRecordEntries completed_at instrument language sections raw cat := by
  have hKeys : (flatRecordEntries completed_at instrument language sections raw cat).map
      Prod.fst
      = ["meta.completed_at", "meta.instrument", "meta.language"]
        ++ ((sectionEntries sections).map Prod.fst
          ++ ["derived.food_security_raw_score", "derived.food_security_category"]) := by
    unfold flatRecordEntries
    simp [List.map_append, List.append_assoc]
  rw [hKeys] at hnodup
  have hmeta : flattenAux true ("" ++ "meta" ++ ".")
      (JVal.jobj [("completed_at", JVal.jstr completed_at),
        ("instrument", JVal.jstr instrument), ("language", JVal.jstr language)]) []
      = [("meta.completed_at", JVal.jstr completed_at),
         ("meta.instrument", JVal.jstr instrument),
         ("meta.language", JVal.jstr language)] := by
    rw [flattenAux_jobj_fields ("" ++ "meta" ++ ".")
      [("completed_at", JVal.jstr completed_at),
       ("instrument", JVal.jstr instrument),
       ("language", JVal.jstr language)] [] rfl]
    rw [flattenFields_answers ("" ++ "meta" ++ ".")
      [("completed_at", JVal.jstr completed_at),
       ("instrument", JVal.jstr instrument),
       ("language", JVal.jstr language)] []
      (by intro q hq; fin_cases hq <;> rfl)
      (show (["meta.completed_at", "meta.instrument",
        "meta.language"] : List String).Nodup by decide)]
    rfl
  unfold flatten_for_table mkRecord
  rw [flattenAux_jobj_fields ""
    [("meta", JVal.jobj [("completed_at", JVal.jstr completed_at),
        ("instrument", JVal.jstr instrument), ("language", JVal.jstr language)]),
     ("sections", JVal.jobj (sections.map (fun s => (s.1, JVal.jobj s.2)))),
     ("derived", JVal.jobj [("food_security_raw_score", JVal.jint (Int.ofNat raw)),
        ("food_security_category", JVal.jstr cat)])] [] rfl]
  rw [flattenFields_cons, flattenFields_cons, flattenFields_cons, flattenFields_nil]
  rw [hmeta]
  rw [show ("" ++ "sections" ++ ".") = "sections." from rfl,
    show ("" ++ "derived" ++ ".") = "derived." from rfl]
  rw [flattenAux_jobj_fields "sections." _ _ hnames]
  rw [flattenFields_sections sections _ hcl hsimple
    (hnodup.sublist ((List.sublist_append_left _ _).append_left _))]
  rw [flattenAux_jobj_fields "derived."
    [("food_security_raw_score", JVal.jint (Int.ofNat raw)),
     ("food_security_category", JVal.jstr cat)]
    ([("meta.completed_at", JVal.jstr completed_at),
      ("meta.instrument", JVal.jstr instrument),
      ("meta.language", JVal.jstr language)] ++ sectionEntries sections) rfl]
  rw [flattenFields_answers "derived."
    [("food_security_raw_score", JVal.jint (Int.ofNat raw)),
     ("food_security_category", JVal.jstr cat)]
    ([("meta.completed_at", JVal.jstr completed_at),
      ("meta.instrument", JVal.jstr instrument),
      ("meta.language", JVal.jstr language)] ++ sectionEntries sections)
    (by intro q hq; fin_cases hq <;> rfl) ?_]
  · unfold flatRecordEntries
    rw [List.append_assoc]
    rfl
  · rw [List.map_append]
    rw [List.append_assoc]
    exact hnodup

/-- Counterexample to claim C2: the flattened row of an assembled record
has no fixed header schema: there are no `timestamp` or `language`
leading columns (the meta columns are dotted paths), an answered choice
question contributes one dotted label column instead of the two columns
`fs1__code` and `fs1__label`, the trailing column is
`derived.food_security_raw_score` rather than `derived_food_security_raw`,
and the header count changes with the number of answered questions. -/
theorem C2_counterexample_no_fixed_schema :
    (flatten_for_table ex_record_one).map Prod.fst
      = ["meta.completed_at", "meta.instrument", "meta.language",
         "sections.Food Insecurity.fs1",
         "derived.food_security_raw_score", "derived.food_security_category"] ∧
    (flatten_for_table ex_record_none).map Prod.fst
      = ["meta.completed_at", "meta.instrument", "meta.language",
         "derived.food_security_raw_score", "derived.food_security_category"] ∧
    "timestamp" ∉ (flatten_for_table ex_record_one).map Prod.fst ∧
    "language" ∉ (flatten_for_table ex_record_one).map Prod.fst ∧
    "fs1__code" ∉ (flatten_for_table ex_record_one).map Prod.fst ∧
    "fs1__label" ∉ (flatten_for_table ex_record_one).map Prod.fst ∧
    "derived_food_security_raw" ∉ (flatten_for_table ex_record_one).map Prod.fst ∧
    (flatten_for_table ex_record_one).length ≠ (flatten_for_table ex_record_none).length := by
  have h1 : flatten_for_table ex_record_one
      = flatRecordEntries "2026-01-01T00:00:00" "SDoH Bilingual Full (Streamlit) v1.0" "en"
        [("Food Insecurity", [("fs1", choiceAns 1 "Often true")])]
        1 "High or marginal food security" :=
    flatten_mkRecord _ _ _ _ _ _ (by decide) (by decide) (by decide) (by decide)
  have h2 : flatten_for_table ex_record_none
      = flatRecordEntries "2026-01-01T00:00:00" "SDoH Bilingual Full (Streamlit) v1.0" "en"
        [("Food Insecurity", [])]
        1 "High or marginal food security" :=
    flatten_mkRecord _ _ _ _ _ _ (by decide) (by decide) (by decide) (by decide)
  rw [h1, h2]
  decide

/-- Claim C2 as amended: the flattened row of an assembled submission
record consists of the three dotted meta columns, then exactly one dotted
column `sections.<section>.<id>` per stored answer (a choice answer
contributes a single column holding its label), then the two dotted
derived columns; provided the generated column paths are distinct, the
header count is `3 + count(stored answers) + 2` and thus depends on how
many questions were answered. -/
theorem C2_amended_flatten_schema (completed_at instrument language : String)
    (sections : List (String × List (String × JVal))) (raw : Nat) (cat : String)
    (hnames : isCodeLabel (sections.map (fun s => (s.1, JVal.jobj s.2))) = false)
    (hcl : ∀ s ∈ sections, isCodeLabel s.2 = false)
    (hsimple : ∀ s ∈ sections, ∀ q ∈ s.2, isSimpleAnswer q.2 = true)
    (hnodup : ((flatRecordEntries completed_at instrument language sections raw cat).map
      Prod.fst).Nodup) :
    flatten_for_table (mkRecord completed_at instrument language sections raw cat)
      = flatRecordEntries completed_at instrument language sections raw cat ∧
    (flatten_for_table (mkRecord completed_at instrument language sections raw cat)).length
      = 5 + (sections.map (fun s => s.2.length)).sum := by
  have h := flatten_mkRecord completed_at instrument language sections raw cat
    hnames hcl hsimple hnodup
  refine ⟨h, ?_⟩
  rw [h]
  unfold flatRecordEntries sectionEntries
  simp [List.length_append, List.length_flatMap, List.length_map, Function.comp_def]
  omega

theorem C2_amended_flatten_schema_witness :
    flatten_for_table (mkRecord "t" "i" "en" [("S", [("q1", choiceAns 1 "Yes")])] 0 "c")
      = flatRecordEntries "t" "i" "en" [("S", [("q1", choiceAns 1 "Yes")])] 0 "c" ∧
    (flatten_for_table (mkRecord "t" "i" "en" [("S", [("q1", choiceAns 1 "Yes")])] 0 "c")).length
      = 5 + ([("S", [("q1", choiceAns 1 "Yes")])].map (fun s => s.2.length)).sum :=
  C2_amended_flatten_schema "t" "i" "en" [("S", [("q1", choiceAns 1 "Yes")])] 0 "c"
    (by decide) (by decide) (by decide) (by decide)

end SDoH
